import Mathlib

/-!
# Verification of the ExpenseExplorer insights and persistence core

Shallow embedding of the insight tools (`insights_logic.py`) and the
deduplicating persistence layer (`schema.py`) of the ExpenseExplorer
repository, together with proofs of the specification claims about them.

Modelling conventions:
* Python `float` amounts are modelled as `ℚ` (only order and field
  operations matter to the claims).
* Python `str.upper()` / `str.lower()` are modelled character-wise with
  `Char.toUpper` / `Char.toLower` (all keywords involved are ASCII).
* Python `None`-able columns are `Option` fields; Python truthiness of a
  string value (`if s:` / `s or d`) treats both `None` and `""` as false,
  which the embedding reproduces explicitly.
* `datetime` values in the trend analyzer are modelled as day ordinals
  (`ℤ`): `datetime` is totally ordered, `timedelta(days = n)` is
  subtraction of `n`, and the `"%Y-%m-%d"` keys used for the daily map
  sort in the same order as the underlying dates.
* SQL tables are lists of rows; a SQLAlchemy session with
  `autoflush = False` queries only the committed list, and `commit`
  appends the pending rows all at once, enforcing declared unique
  constraints.
-/

namespace ExpenseExplorer

/-- Python substring test `pat in hay` restricted to the point where
`hasPre pat hay` asks whether `pat` is an initial segment of `hay`. -/
def hasPre : List Char → List Char → Bool
  | [], _ => true
  | _ :: _, [] => false
  | p :: ps, h :: hs => p == h && hasPre ps hs

/-- Python substring containment `pat in hay` on character lists. -/
def containsSub (hay pat : List Char) : Bool :=
  hasPre pat hay ||
    (match hay with
     | [] => false
     | _ :: t => containsSub t pat)

/-- `pat in hay` on strings (Python `in` operator for `str`). -/
def strContains (hay pat : String) : Bool :=
  containsSub hay.data pat.data

/-- Python string comparison `a <= b`: lexicographic by code point. -/
def pyLe : List Char → List Char → Bool
  | [], _ => true
  | _ :: _, [] => false
  | a :: as, b :: bs => if a = b then pyLe as bs else decide (a.val < b.val)

/-- Python `str.upper()` (ASCII-faithful model). -/
def upStr (s : String) : String := ⟨s.data.map Char.toUpper⟩

/-- Python `str.lower()` (ASCII-faithful model). -/
def lowStr (s : String) : String := ⟨s.data.map Char.toLower⟩

/-! ## Tool 2: merchant rule matcher (`insights_logic.enrich_merchant`) -/

/-- The `MERCHANT_RULES` table of `insights_logic.py`, in declaration
order (Python dicts preserve insertion order). -/
def MERCHANT_RULES : List (String × List String) :=
  [ ("Transportation",
      ["UBER", "LYFT", "TAXI", "METRO", "TRANSIT", "PARKING", "GAS",
       "SHELL", "CHEVRON", "EXXON"]),
    ("Groceries",
      ["WALMART", "COSTCO", "SAFEWAY", "KROGER", "TRADER JOE",
       "WHOLE FOODS", "ALDI", "PUBLIX", "HEB"]),
    ("Dining",
      ["RESTAURANT", "CAFE", "COFFEE", "STARBUCKS", "MCDONALDS",
       "CHIPOTLE", "PIZZA", "SUSHI", "GRUBHUB", "DOORDASH"]),
    ("Travel",
      ["AIRLINE", "HOTEL", "MARRIOTT", "HILTON", "HERTZ", "AVIS",
       "AIRBNB", "BOOKING", "EXPEDIA", "SOUTHWEST", "DELTA", "UNITED"]),
    ("Subscriptions",
      ["NETFLIX", "SPOTIFY", "APPLE", "AMAZON PRIME", "HULU", "HBO",
       "DISNEY", "YOUTUBE"]),
    ("Insurance",
      ["INSURANCE", "GEICO", "STATE FARM", "ALLSTATE", "PROGRESSIVE"]),
    ("Utilities",
      ["ELECTRIC", "WATER", "GAS BILL", "INTERNET", "COMCAST", "ATT",
       "VERIZON", "TMOBILE"]),
    ("Shopping",
      ["AMAZON", "TARGET", "BEST BUY", "APPLE STORE", "NORDSTROM",
       "MACYS"]) ]

/-- Result dictionary of `enrich_merchant`: `type`, `inferred_category`
and, present only on a match, `matched_keyword`. -/
structure EnrichResult where
  type : String
  inferred_category : String
  matched_keyword : Option String
deriving DecidableEq, Repr

/-- The inner `for keyword in keywords` loop of `enrich_merchant`:
first keyword (in list order) contained in the uppercased name. -/
def findKw (up : String) : List String → Option String
  | [] => none
  | kw :: rest => if strContains up kw then some kw else findKw up rest

/-- The outer `for category, keywords in MERCHANT_RULES.items()` loop:
first category (in table order) with a matching keyword, paired with
that keyword. -/
def findRule (up : String) :
    List (String × List String) → Option (String × String)
  | [] => none
  | (cat, kws) :: rest =>
      match findKw up kws with
      | some kw => some (cat, kw)
      | none => findRule up rest

/-- The fallback value `{"type": "Unknown", "inferred_category":
"Miscellaneous"}`. -/
def unknownMerchant : EnrichResult :=
  ⟨"Unknown", "Miscellaneous", none⟩

/-- `insights_logic.enrich_merchant`.  A Python-falsy name (`None` or
`""`) is modelled as the empty string. -/
def enrich_merchant (merchant_name : String) : EnrichResult :=
  if merchant_name = "" then unknownMerchant
  else
    match findRule (upStr merchant_name) MERCHANT_RULES with
    | some (cat, kw) => ⟨cat, cat, some kw⟩
    | none => unknownMerchant

/-! ## Tool 3: subscription detector (`insights_logic.detect_subscriptions`)

The SQL query groups `transactions` by `(description, amount,
provider_name, account_last_4)`, keeps groups with `COUNT(*) >= 2` and
orders them by occurrence count descending; the Python loop then runs
over the returned group rows.  `detect_subscriptions` is embedded as the
loop body over a list of such group rows; the `HAVING` and `ORDER BY`
facts appear as hypotheses of the theorems. -/

/-- One row of the grouping query inside `detect_subscriptions`. -/
structure GroupRow where
  description : Option String
  amount : ℚ
  provider_name : Option String
  account_last_4 : Option String
  occurrences : ℕ
deriving DecidableEq, Repr

/-- The fixed keyword list tested by `detect_subscriptions`. -/
def SUBSCRIPTION_KEYWORDS : List String :=
  ["SUBSCRIPTION", "MONTHLY", "NETFLIX", "SPOTIFY", "APPLE",
   "AMAZON PRIME", "HULU", "HBO", "DISNEY", "YOUTUBE", "INSURANCE"]

/-- `upper_desc = description.upper() if description else ""` followed by
`any(kw in upper_desc for kw in [...])`. -/
def isLikelySubscription (description : Option String) : Bool :=
  let upper_desc :=
    match description with
    | none => ""
    | some d => if d = "" then "" else upStr d
  SUBSCRIPTION_KEYWORDS.any (fun kw => strContains upper_desc kw)

/-- One element of the list returned by `detect_subscriptions`. -/
structure SubRow where
  description : Option String
  amount : ℚ
  occurrences : ℕ
  provider : Option String
  account : Option String
  is_likely_subscription : Bool
  estimated_monthly_cost : ℚ
deriving DecidableEq, Repr

/-- The dictionary appended for a group row that passes the inclusion
test. -/
def mkSubRow (r : GroupRow) : SubRow :=
  { description := r.description
    amount := r.amount
    occurrences := r.occurrences
    provider := r.provider_name
    account := r.account_last_4
    is_likely_subscription := isLikelySubscription r.description
    estimated_monthly_cost :=
      if 2 ≤ r.occurrences then r.amount else 0 }

/-- `insights_logic.detect_subscriptions`, as a function of the group
rows produced by its SQL query. -/
def detect_subscriptions (rows : List GroupRow) : List SubRow :=
  rows.filterMap (fun r =>
    if isLikelySubscription r.description || 3 ≤ r.occurrences then
      some (mkSubRow r)
    else none)

/-! ## Tool 3.5: anomaly detector (`insights_logic.detect_anomalies`) -/

/-- The fields of a `DBTransaction` row read by `detect_anomalies` and
`analyze_trends` (`schema.DBTransaction`; the remaining columns are
never consulted by these tools). -/
structure DBTx where
  date : String
  description : String
  amount : ℚ
  category : Option String
  merchant : Option String
deriving DecidableEq, Repr

/-- Python `tx.merchant or tx.description` (falsy `merchant`, i.e.
`None` or `""`, falls back to the description). -/
def merchantOf (tx : DBTx) : String :=
  match tx.merchant with
  | none => tx.description
  | some m => if m = "" then tx.description else m

/-- `tx.category in ["Credit Card Payment", "Internal Transfer"]`
(a `None` category is not in the list). -/
def isExcludedCat (category : Option String) : Bool :=
  category == some "Credit Card Payment" ||
    category == some "Internal Transfer"

/-- Python `l[-n:]`. -/
def takeLast {α : Type} (n : ℕ) (l : List α) : List α :=
  l.drop (l.length - n)

/-- Lookup in the `defaultdict(list)` keyed by (possibly `None`)
category; a missing key reads as `[]`. -/
def windowLookup (m : List (Option String × List ℚ))
    (k : Option String) : List ℚ :=
  match m with
  | [] => []
  | (k0, v) :: rest => if k0 = k then v else windowLookup rest k

/-- `category_spending[tx.category].append(tx.amount)` on the assoc-list
model of the defaultdict. -/
def windowAppend (m : List (Option String × List ℚ))
    (k : Option String) (a : ℚ) : List (Option String × List ℚ) :=
  match m with
  | [] => [(k, [a])]
  | (k0, v) :: rest =>
      if k0 = k then (k0, v ++ [a]) :: rest
      else (k0, v) :: windowAppend rest k a

/-- One anomaly dictionary. -/
structure Anomaly where
  type : String
  severity : String
  description : String
  amount : ℚ
  date : String
  merchant : String
deriving DecidableEq, Repr

/-- String rendering of a possibly-`None` category inside the f-string
`f"Unusually high {tx.category} expense"`. -/
def showCat : Option String → String
  | none => "None"
  | some c => c

/-- Accumulating state of the chronological pass of `detect_anomalies`. -/
structure AnomState where
  category_spending : List (Option String × List ℚ)
  seen_merchants : List String
  anomalies : List Anomaly
deriving DecidableEq, Repr

/-- Initial state: empty defaultdict, empty merchant set, no anomalies. -/
def initAnomState : AnomState := ⟨[], [], []⟩

/-- The spike anomalies (zero or one) emitted for `tx` against the
pre-update state `s`: the window is the last 10 recorded amounts of the
category, the rule fires when the window is non-empty, the amount
exceeds 2.5 times its average and exceeds 50, and the severity is
`"high"` exactly when the amount exceeds 5 times the average. -/
def spikeAnomalies (s : AnomState) (tx : DBTx) : List Anomaly :=
  let recent_spending := takeLast 10 (windowLookup s.category_spending tx.category)
  if recent_spending = [] then []
  else
    let avg := recent_spending.sum / (recent_spending.length : ℚ)
    if avg * 2.5 < tx.amount ∧ 50 < tx.amount then
      [{ type := "spike"
         severity := if avg * 5 < tx.amount then "high" else "medium"
         description := "Unusually high " ++ showCat tx.category ++ " expense"
         amount := tx.amount
         date := tx.date
         merchant := merchantOf tx }]
    else []

/-- The new-merchant anomalies (zero or one) emitted for `tx` against
the pre-update state `s`: emitted when the case-folded merchant key is
unseen and strictly more than 20 distinct keys have been seen. -/
def newMerchantAnomalies (s : AnomState) (tx : DBTx) : List Anomaly :=
  let m_key := lowStr (merchantOf tx)
  if m_key ∉ s.seen_merchants ∧ 20 < s.seen_merchants.length then
    [{ type := "new_merchant"
       severity := "low"
       description := "First time spending at " ++ merchantOf tx
       amount := tx.amount
       date := tx.date
       merchant := merchantOf tx }]
  else []

/-- One iteration of the `for tx in sorted_txs` loop of
`detect_anomalies`: non-expenses are skipped entirely, rules are
evaluated against the pre-update state, and only then is the state
updated. -/
def anomalyStep (s : AnomState) (tx : DBTx) : AnomState :=
  if tx.amount ≤ 0 ∨ isExcludedCat tx.category then s
  else
    let emitted := spikeAnomalies s tx ++ newMerchantAnomalies s tx
    let m_key := lowStr (merchantOf tx)
    { category_spending := windowAppend s.category_spending tx.category tx.amount
      seen_merchants :=
        if m_key ∈ s.seen_merchants then s.seen_merchants
        else s.seen_merchants ++ [m_key]
      anomalies := s.anomalies ++ emitted }

/-- The full chronological pass over an (already sorted) transaction
list. -/
def anomalyPass (txs : List DBTx) : AnomState :=
  txs.foldl anomalyStep initAnomState

/-- `insights_logic.detect_anomalies` as a function of the stored
transactions: sort by date, run the chronological pass, return the last
5 anomalies (`anomalies[-5:]`). -/
def detect_anomalies (txs : List DBTx) : List Anomaly :=
  if txs = [] then []
  else
    let sorted_txs :=
      List.insertionSort (fun a b => pyLe a.date.data b.date.data = true) txs
    takeLast 5 (anomalyPass sorted_txs).anomalies

/-! ## Tool 5: trend analyzer (`insights_logic.analyze_trends`)

Parsed `datetime` values are modelled as day ordinals (`ℤ`); see the
header comment.  `parsed_data` is the list of `(date, amount)` pairs
surviving the parse-and-filter loop; the aggregation and trend
computation are embedded below. -/

/-- Python `round(x, 2)` (2-decimal rounding; the tie-breaking detail of
float rounding is immaterial to every claim proved here). -/
def round2 (q : ℚ) : ℚ := (round (q * 100) : ℤ) / 100

/-- Python `round(x, 1)`. -/
def round1 (q : ℚ) : ℚ := (round (q * 10) : ℤ) / 10

/-- The anchor date: `parsed_data` is sorted ascending by date and the
last element's date is taken, i.e. the maximum date. -/
def anchorDate (parsed : List (ℤ × ℚ)) : ℤ :=
  ((parsed.map Prod.fst).max?).getD 0

/-- `daily_map[date_key] += d['amount']` on the insertion-ordered
assoc-list model of the defaultdict. -/
def dailyAdd (m : List (ℤ × ℚ)) (d : ℤ) (a : ℚ) : List (ℤ × ℚ) :=
  match m with
  | [] => [(d, a)]
  | (d0, v) :: rest =>
      if d0 = d then (d0, v + a) :: rest else (d0, v) :: dailyAdd rest d a

/-- The daily series of `analyze_trends`: keep entries with
`date >= anchor - timedelta(days = 30)`, accumulate per-day sums,
return `(key, round(v, 2))` pairs sorted by key ascending. -/
def dailySeriesOf (parsed : List (ℤ × ℚ)) : List (ℤ × ℚ) :=
  let anchor := anchorDate parsed
  let daily_map :=
    (parsed.filter (fun p => anchor - 30 ≤ p.1)).foldl
      (fun m p => dailyAdd m p.1 p.2) []
  (List.insertionSort (fun x y => x.1 ≤ y.1) daily_map).map
    (fun p => (p.1, round2 p.2))

/-- Modelled from the spec (for comparison with `dailySeriesOf`, which
is the code's behaviour): "sum of amounts per calendar day, restricted
to the 30 days up to and including the anchor date" — the window of the
30 calendar days ending at the anchor, i.e. dates `d` with
`anchor - 29 ≤ d ≤ anchor`. -/
def specDailySeriesOf (parsed : List (ℤ × ℚ)) : List (ℤ × ℚ) :=
  let anchor := anchorDate parsed
  let daily_map :=
    (parsed.filter (fun p => anchor - 29 ≤ p.1)).foldl
      (fun m p => dailyAdd m p.1 p.2) []
  (List.insertionSort (fun x y => x.1 ≤ y.1) daily_map).map
    (fun p => (p.1, round2 p.2))

/-- The `current_val` assignment of `analyze_trends`:
`monthly_series[-1]` when at least two buckets exist, else the single
bucket's value (`monthly_series[0]`) or 0 when there is none. -/
def trendCurrent (monthly : List ℚ) : ℚ :=
  if 2 ≤ monthly.length then monthly.getLastD 0 else monthly.headD 0

/-- The `previous_val` assignment of `analyze_trends`:
`monthly_series[-2]` when at least two buckets exist, else its initial
value 0. -/
def trendPrevious (monthly : List ℚ) : ℚ :=
  if 2 ≤ monthly.length then monthly.dropLast.getLastD 0 else 0

/-- The `change_pct` assignment of `analyze_trends`:
`((current - previous) / abs(previous)) * 100` when at least two buckets
exist and the previous total is nonzero, else its initial value 0. -/
def trendChange (monthly : List ℚ) : ℚ :=
  if 2 ≤ monthly.length then
    if monthly.dropLast.getLastD 0 ≠ 0 then
      ((monthly.getLastD 0 - monthly.dropLast.getLastD 0)
          / |monthly.dropLast.getLastD 0|) * 100
    else 0
  else 0

/-- The `trend_direction` conditional expression of `analyze_trends`. -/
def trendDirection (change_pct : ℚ) : String :=
  if 5 < change_pct then "increasing"
  else if change_pct < -5 then "decreasing"
  else "stable"

/-- The trend computation of `analyze_trends` (its last block), as a
function of the ascending monthly series bucket amounts: returns
`(change_pct, trend_direction, current_val, previous_val)` before the
final rounding of `change_pct` to one decimal. -/
def trendCalc (monthly : List ℚ) : ℚ × String × ℚ × ℚ :=
  (trendChange monthly, trendDirection (trendChange monthly),
    trendCurrent monthly, trendPrevious monthly)

/-! ## Persistence layer (`schema.save_transactions`)

The `transactions` table is a list of `DBRow`; the session has
`autoflush = False`, so the per-record duplicate query sees only the
committed list, and `session.commit()` flushes all pending inserts at
once, subject to the table's unique constraint on
`(date, description, amount, source_file)`. -/

/-- The incoming Pydantic `Transaction` record (`schema.Transaction`). -/
structure TxIn where
  date : String
  description : String
  amount : ℚ
  category : String
  location : Option String
  source_file : Option String
  merchant : Option String
  is_subscription : Bool
  payment_method : Option String
  tags : Option String
  currency : Option String
  raw_description : Option String
  transaction_type : Option String
  reference_number : Option String
  account_last_4 : Option String
  provider_name : Option String
  is_essential : Option Bool
  tax_category : Option String
  confidence : Option ℚ
deriving DecidableEq, Repr

/-- A stored `DBTransaction` row (`schema.DBTransaction`), with the
columns written by `save_transactions`. -/
structure DBRow where
  date : String
  description : String
  amount : ℚ
  category : String
  location : Option String
  source_file : String
  merchant : Option String
  is_subscription : Bool
  payment_method : Option String
  tags : Option String
  currency : Option String
  raw_description : Option String
  transaction_type : Option String
  reference_number : Option String
  account_last_4 : Option String
  provider_name : Option String
  is_essential : Option Bool
  tax_category : Option String
  confidence : Option ℚ
deriving DecidableEq, Repr

/-- Python `tx.source_file or "unknown"` (both `None` and `""` are
falsy). -/
def orUnknown : Option String → String
  | none => "unknown"
  | some s => if s = "" then "unknown" else s

/-- The identity key of an incoming record, as used by the duplicate
query. -/
def txKey (tx : TxIn) : String × String × ℚ × String :=
  (tx.date, tx.description, tx.amount, orUnknown tx.source_file)

/-- The identity key of a stored row (the unique-constraint columns
`_date_desc_amount_file_uc`). -/
def rowKey (r : DBRow) : String × String × ℚ × String :=
  (r.date, r.description, r.amount, r.source_file)

/-- The duplicate-check query of `save_transactions` for one record
against one stored row. -/
def matchesKey (r : DBRow) (tx : TxIn) : Bool :=
  decide (r.date = tx.date ∧ r.description = tx.description ∧
    r.amount = tx.amount ∧ r.source_file = orUnknown tx.source_file)

/-- The `DBTransaction(...)` constructed and added for a non-duplicate
record. -/
def toRow (tx : TxIn) : DBRow :=
  { date := tx.date
    description := tx.description
    amount := tx.amount
    category := tx.category
    location := tx.location
    source_file := orUnknown tx.source_file
    merchant := tx.merchant
    is_subscription := tx.is_subscription
    payment_method := tx.payment_method
    tags := tx.tags
    currency := tx.currency
    raw_description := tx.raw_description
    transaction_type := tx.transaction_type
    reference_number := tx.reference_number
    account_last_4 := tx.account_last_4
    provider_name := tx.provider_name
    is_essential := tx.is_essential
    tax_category := tx.tax_category
    confidence := tx.confidence }

/-- The `for tx in transactions` loop of `save_transactions`: with
`autoflush = False` every duplicate query runs against the pre-call
store only; the loop accumulates the session's pending inserts (in
order) and the `new_count` counter. -/
def savePending (store : List DBRow) (batch : List TxIn) :
    List DBRow × ℕ :=
  batch.foldl
    (fun acc tx =>
      if store.any (fun r => matchesKey r tx) then acc
      else (acc.1 ++ [toRow tx], acc.2 + 1))
    ([], 0)

/-- `schema.save_transactions`: the loop above followed by
`session.commit()`.  The commit appends all pending rows atomically; it
raises (`IntegrityError`, a `SQLAlchemyError`) exactly when the
resulting table would violate the unique constraint on
`(date, description, amount, source_file)`; in that case the session is
rolled back and the exception propagates (tenacity re-raises after the
retries fail identically on the unchanged store). -/
def save_transactions (store : List DBRow) (batch : List TxIn) :
    Except String (List DBRow × ℕ) :=
  let (pending, new_count) := savePending store batch
  if ((store ++ pending).map rowKey).Nodup then
    .ok (store ++ pending, new_count)
  else .error "UNIQUE constraint failed: transactions"

/-- The state of the `transactions` table after a `save_transactions`
call: the committed table on success, the rolled-back (unchanged) table
on failure. -/
def saveTransactionsDB (store : List DBRow) (batch : List TxIn) :
    List DBRow :=
  match save_transactions store batch with
  | .ok (s, _) => s
  | .error _ => store

/-! ## Insight cache and pipeline orchestrator
(`insights_logic.save_insight`, `get_cached_insights`,
`run_full_insights_pipeline`)

Timestamps are modelled in days (`ℤ`); `INSIGHTS_TTL_DAYS = 7`.  The
four insight tools read only the `transactions` table, which the
pipeline never modifies, so within one pipeline call their results are
fixed values; the embedding passes those four results as arguments. -/

/-- `INSIGHTS_TTL_DAYS` from `insights_logic.py`. -/
def INSIGHTS_TTL_DAYS : ℤ := 7

/-- The full output dictionary of `analyze_trends`. -/
structure TrendOut where
  trend : String
  change_percentage : ℚ
  current_month_total : ℚ
  previous_month_total : ℚ
  daily : List (ℤ × ℚ)
  weekly : List (String × ℚ)
  monthly : List (String × ℚ)
deriving DecidableEq, Repr

/-- The deserialized (`json.loads`) payload of an insight row, by
shape. -/
inductive IVal where
  | cat : List (String × ℚ) → IVal
  | subs : List SubRow → IVal
  | trends : TrendOut → IVal
  | anoms : List Anomaly → IVal
  | merch : EnrichResult → IVal
deriving DecidableEq, Repr

/-- A `DBInsight` row (`schema.DBInsight`), with the serialized value
modelled as its typed payload. -/
structure InsightRow where
  insight_type : String
  key : String
  value : IVal
  confidence : ℚ
  computed_at : ℤ
  expires_at : ℤ
deriving DecidableEq, Repr

/-- The consolidated report dictionary assembled by
`get_cached_insights` (and, minus the `merchants` map, returned by the
recompute branch of the pipeline). -/
structure Report where
  category_summary : List (String × ℚ)
  subscriptions : List SubRow
  trends : Option TrendOut
  anomalies : List Anomaly
  merchants : List (String × IVal)
  computed_at : Option ℤ
deriving DecidableEq, Repr

/-- The default report skeleton of `get_cached_insights` (empty dict /
list defaults, `computed_at = None`). -/
def defaultReport : Report :=
  { category_summary := []
    subscriptions := []
    trends := none
    anomalies := []
    merchants := []
    computed_at := none }

/-- The `for insight in insights` assembly loop of
`get_cached_insights`. -/
def applyRow (r : Report) (row : InsightRow) : Report :=
  match row.insight_type, row.value with
  | "category_summary", .cat c =>
      { r with category_summary := c, computed_at := some row.computed_at }
  | "subscriptions", .subs s => { r with subscriptions := s }
  | "trends", .trends t => { r with trends := some t }
  | "merchant_enrichment", v =>
      { r with merchants := r.merchants ++ [(row.key, v)] }
  | "anomalies", .anoms a => { r with anomalies := a }
  | _, _ => r

/-- `insights_logic.get_cached_insights`: the rows with
`expires_at > now`; `None` when there are none, otherwise the report
assembled from them. -/
def get_cached_insights (store : List InsightRow) (now : ℤ) :
    Option Report :=
  let insights := store.filter (fun r => now < r.expires_at)
  if insights.isEmpty then none
  else some (insights.foldl applyRow defaultReport)

/-- `insights_logic.save_insight`: upsert keyed on
`(insight_type, key)` — update the first (by uniqueness, only) matching
row in place, refreshing `computed_at` and `expires_at`, else append a
new row with a fresh TTL. -/
def save_insight (store : List InsightRow) (insight_type key : String)
    (value : IVal) (now : ℤ) : List InsightRow :=
  match store with
  | [] =>
      [{ insight_type := insight_type, key := key, value := value,
         confidence := 1, computed_at := now,
         expires_at := now + INSIGHTS_TTL_DAYS }]
  | r :: rest =>
      if r.insight_type = insight_type ∧ r.key = key then
        { r with value := value, confidence := 1, computed_at := now,
                 expires_at := now + INSIGHTS_TTL_DAYS } :: rest
      else r :: save_insight rest insight_type key value now

/-- `insights_logic.run_full_insights_pipeline`, returning the report
together with the final insight store.  `category_summary`,
`subscriptions`, `trends` and `anomalies` are the (fixed) results the
four tools compute from the unmodified transactions table; on the
recompute path each is persisted via `save_insight` in the source's
order before the next tool's save. -/
def run_full_insights_pipeline (store : List InsightRow)
    (force_refresh : Bool) (now : ℤ)
    (category_summary : List (String × ℚ)) (subscriptions : List SubRow)
    (trends : TrendOut) (anomalies : List Anomaly) :
    Report × List InsightRow :=
  let recompute : Report × List InsightRow :=
    let s1 := save_insight store "category_summary" "all"
      (.cat category_summary) now
    let s2 := save_insight s1 "subscriptions" "all"
      (.subs subscriptions) now
    let s3 := save_insight s2 "trends" "all" (.trends trends) now
    let s4 := save_insight s3 "anomalies" "all" (.anoms anomalies) now
    ({ category_summary := category_summary
       subscriptions := subscriptions
       trends := some trends
       anomalies := anomalies
       merchants := []
       computed_at := some now }, s4)
  if force_refresh then recompute
  else
    match get_cached_insights store now with
    | some cached => (cached, store)
    | none => recompute

/-! ## Lemmas about the merchant rule matcher -/

theorem findKw_eq_none {up : String} {kws : List String}
    (h : ∀ kw ∈ kws, strContains up kw = false) : findKw up kws = none := by
  induction kws with
  | nil => rfl
  | cons k rest ih =>
      have hk := h k (by simp)
      simp only [findKw, hk, Bool.false_eq_true, if_false]
      exact ih fun kw hkw => h kw (by simp [hkw])

theorem findKw_eq_some {up : String} {kpre kpost : List String}
    {kw : String} (hpre : ∀ k ∈ kpre, strContains up k = false)
    (hkw : strContains up kw = true) :
    findKw up (kpre ++ kw :: kpost) = some kw := by
  induction kpre with
  | nil => simp [findKw, hkw]
  | cons k rest ih =>
      have hk := hpre k (by simp)
      simp only [List.cons_append, findKw, hk]
      simpa using ih fun k' hk' => hpre k' (by simp [hk'])

theorem findRule_eq_none {up : String}
    {rules : List (String × List String)}
    (h : ∀ cr ∈ rules, ∀ kw ∈ cr.2, strContains up kw = false) :
    findRule up rules = none := by
  induction rules with
  | nil => rfl
  | cons cr rest ih =>
      obtain ⟨cat, kws⟩ := cr
      have : findKw up kws = none :=
        findKw_eq_none fun kw hkw => h (cat, kws) (by simp) kw hkw
      simp only [findRule, this]
      exact ih fun cr' hcr' => h cr' (by simp [hcr'])

theorem findRule_eq_some {up : String}
    {pre post : List (String × List String)} {cat : String}
    {kws : List String} {kw : String}
    (hpre : ∀ cr ∈ pre, ∀ k ∈ cr.2, strContains up k = false)
    (hkws : findKw up kws = some kw) :
    findRule up (pre ++ (cat, kws) :: post) = some (cat, kw) := by
  induction pre with
  | nil => simp [findRule, hkws]
  | cons cr rest ih =>
      obtain ⟨c, ks⟩ := cr
      have : findKw up ks = none :=
        findKw_eq_none fun k hk => hpre (c, ks) (by simp) k hk
      simp only [List.cons_append, findRule, this]
      exact ih fun cr' hcr' => hpre cr' (by simp [hcr'])

/-- C4: `enrich_merchant` is a pure deterministic function: an empty or
missing name, and any name whose uppercasing contains no keyword of any
category, yield the `Unknown`/`Miscellaneous` fallback; any other name
yields the first category (in `MERCHANT_RULES` order) containing a
matching keyword, with the first matching keyword (in the category's
list order) reported; in particular `"UBER EATS DELIVERY"` is classed as
`Transportation` and `"XYZCORP123"` falls back. -/
theorem enrich_merchant_spec :
    (enrich_merchant "" = unknownMerchant)
    ∧ (∀ name, (∀ cr ∈ MERCHANT_RULES, ∀ kw ∈ cr.2,
          strContains (upStr name) kw = false) →
        enrich_merchant name = unknownMerchant)
    ∧ (∀ name pre cat kws post kpre kw kpost, name ≠ "" →
        MERCHANT_RULES = pre ++ (cat, kws) :: post →
        (∀ cr ∈ pre, ∀ k ∈ cr.2, strContains (upStr name) k = false) →
        kws = kpre ++ kw :: kpost →
        (∀ k ∈ kpre, strContains (upStr name) k = false) →
        strContains (upStr name) kw = true →
        enrich_merchant name = ⟨cat, cat, some kw⟩)
    ∧ enrich_merchant "UBER EATS DELIVERY"
        = ⟨"Transportation", "Transportation", some "UBER"⟩
    ∧ enrich_merchant "XYZCORP123" = unknownMerchant := by
  refine ⟨by decide, ?_, ?_, by decide, by decide⟩
  · intro name h
    by_cases hn : name = ""
    · simp [enrich_merchant, hn]
    · simp [enrich_merchant, hn, findRule_eq_none h]
  · intro name pre cat kws post kpre kw kpost hn hrules hpre hkws hkpre hkw
    have hfind : findRule (upStr name) MERCHANT_RULES = some (cat, kw) := by
      rw [hrules]
      exact findRule_eq_some hpre (hkws ▸ findKw_eq_some hkpre hkw)
    simp [enrich_merchant, hn, hfind]

/-- Witness for C4: instantiating the first-match clause at the concrete
name `"SAFEWAY STORE"`, whose keyword sits in the second rule-table
entry behind two non-matching keywords. -/
theorem enrich_merchant_spec_witness :
    enrich_merchant "SAFEWAY STORE"
      = ⟨"Groceries", "Groceries", some "SAFEWAY"⟩ :=
  enrich_merchant_spec.2.2.1 "SAFEWAY STORE"
    [("Transportation",
      ["UBER", "LYFT", "TAXI", "METRO", "TRANSIT", "PARKING", "GAS",
       "SHELL", "CHEVRON", "EXXON"])]
    "Groceries"
    ["WALMART", "COSTCO", "SAFEWAY", "KROGER", "TRADER JOE",
     "WHOLE FOODS", "ALDI", "PUBLIX", "HEB"]
    (MERCHANT_RULES.drop 2)
    ["WALMART", "COSTCO"] "SAFEWAY"
    ["KROGER", "TRADER JOE", "WHOLE FOODS", "ALDI", "PUBLIX", "HEB"]
    (by decide) (by decide) (by decide) (by decide) (by decide) (by decide)

/-! ## Lemmas about the subscription detector -/

theorem filterMap_ite_eq_map_filter {α β : Type} (p : α → Bool)
    (f : α → β) (l : List α) :
    l.filterMap (fun a => if p a then some (f a) else none)
      = (l.filter p).map f := by
  induction l with
  | nil => rfl
  | cons a rest ih =>
      by_cases h : p a = true <;>
        simp [List.filterMap_cons, List.filter_cons, h, ih]

/-- C5: `detect_subscriptions` keeps exactly the query's groups (which
all have at least 2 occurrences, ordered by occurrence count descending)
that are keyword-flagged or have at least 3 occurrences; every returned
candidate carries its occurrence count, satisfies the inclusion rule
(so a non-keyword group with exactly 2 occurrences never appears), and
reports its raw per-occurrence amount as `estimated_monthly_cost`; the
descending order is preserved. -/
theorem detect_subscriptions_spec (rows : List GroupRow)
    (hocc : ∀ r ∈ rows, 2 ≤ r.occurrences)
    (hsorted : List.Sorted
      (fun a b : GroupRow => b.occurrences ≤ a.occurrences) rows) :
    detect_subscriptions rows
      = (rows.filter (fun r =>
          isLikelySubscription r.description || 3 ≤ r.occurrences)).map
            mkSubRow
    ∧ (∀ s ∈ detect_subscriptions rows,
        s.estimated_monthly_cost = s.amount
        ∧ (s.is_likely_subscription = true ∨ 3 ≤ s.occurrences))
    ∧ List.Sorted (fun a b : SubRow => b.occurrences ≤ a.occurrences)
        (detect_subscriptions rows) := by
  have heq : detect_subscriptions rows
      = (rows.filter (fun r =>
          isLikelySubscription r.description || 3 ≤ r.occurrences)).map
            mkSubRow :=
    filterMap_ite_eq_map_filter _ _ rows
  refine ⟨heq, ?_, ?_⟩
  · intro s hs
    rw [heq] at hs
    obtain ⟨r, hr, rfl⟩ := List.mem_map.mp hs
    have hrrows : r ∈ rows := List.mem_of_mem_filter hr
    have hrule := List.of_mem_filter hr
    have h2 : 2 ≤ r.occurrences := hocc r hrrows
    constructor
    · simp [mkSubRow, h2]
    · simpa [mkSubRow] using hrule
  · rw [heq]
    exact List.Pairwise.map _ (fun a b hab => by simpa [mkSubRow] using hab)
      (hsorted.filter _)

/-- Witness for C5: three groups — one non-keyword with 3 occurrences
(kept), one keyword-flagged with 2 (kept), one non-keyword with 2
(dropped). -/
theorem detect_subscriptions_spec_witness :
    detect_subscriptions
      [⟨some "GYM CLUB", 30, none, none, 3⟩,
       ⟨some "Netflix.com", 15, some "Chase", some "1234", 2⟩,
       ⟨some "COFFEE SHOP", 5, none, none, 2⟩]
      = [mkSubRow ⟨some "GYM CLUB", 30, none, none, 3⟩,
         mkSubRow ⟨some "Netflix.com", 15, some "Chase", some "1234", 2⟩] :=
  ((detect_subscriptions_spec
      [⟨some "GYM CLUB", 30, none, none, 3⟩,
       ⟨some "Netflix.com", 15, some "Chase", some "1234", 2⟩,
       ⟨some "COFFEE SHOP", 5, none, none, 2⟩]
      (by decide) (by decide)).1).trans (by decide)

/-! ## Lemmas about the anomaly detector -/

/-- A family of pairwise-distinct transactions (distinct merchants and
distinct categories, all with amount 10 on one date), used to exercise
the new-merchant cold start. -/
def coldTx (i : ℕ) : DBTx :=
  ⟨"2024-01-01", "M" ++ toString i, 10, some ("C" ++ toString i), none⟩

/-- Counterexample to C3 as stated: after exactly 20 distinct merchant
keys have been observed, a qualifying transaction with a never-seen
merchant key ("at least 20 observed", as the claim reads) emits no
anomaly at all — the code requires strictly more than 20. -/
theorem new_merchant_at_twenty_counterexample :
    (anomalyPass ((List.range 20).map coldTx)).seen_merchants.length = 20
    ∧ lowStr (merchantOf (coldTx 20))
        ∉ (anomalyPass ((List.range 20).map coldTx)).seen_merchants
    ∧ 0 < (coldTx 20).amount
    ∧ isExcludedCat (coldTx 20).category = false
    ∧ anomalyPass ((List.range 21).map coldTx)
        = anomalyStep (anomalyPass ((List.range 20).map coldTx)) (coldTx 20)
    ∧ (anomalyPass ((List.range 21).map coldTx)).anomalies = []
    ∧ detect_anomalies ((List.range 21).map coldTx) = [] := by
  refine ⟨by decide, by decide, by decide, by decide, by decide, by decide,
    by decide⟩

/-- C3 (amended): in the chronological pass, a positive-amount,
non-excluded transaction whose case-folded merchant key has never been
seen emits a severity-"low" `new_merchant` anomaly exactly when strictly
more than 20 distinct merchant keys have been observed (so the cold
start covers the first 21 distinct merchants); while at most 20 have
been observed, no `new_merchant` anomaly is emitted. -/
theorem new_merchant_rule_spec (s : AnomState) (tx : DBTx)
    (hpos : 0 < tx.amount) (hcat : isExcludedCat tx.category = false)
    (hfresh : lowStr (merchantOf tx) ∉ s.seen_merchants) :
    (anomalyStep s tx).anomalies
      = s.anomalies ++ spikeAnomalies s tx
          ++ (if 20 < s.seen_merchants.length then
                [{ type := "new_merchant", severity := "low",
                   description := "First time spending at " ++ merchantOf tx,
                   amount := tx.amount, date := tx.date,
                   merchant := merchantOf tx }]
              else []) := by
  have hskip : ¬ (tx.amount ≤ 0 ∨ isExcludedCat tx.category) := by
    push_neg
    exact ⟨hpos, by simp [hcat]⟩
  simp only [anomalyStep, if_neg hskip, newMerchantAnomalies, hfresh,
    not_false_iff, true_and, List.append_assoc]

/-- Witness for C3 (amended): with 21 merchant keys already seen and an
empty spending history, a fresh-merchant transaction emits exactly one
`new_merchant` anomaly of severity "low". -/
theorem new_merchant_rule_spec_witness :
    (anomalyStep ⟨[], (List.range 21).map (fun i => "m" ++ toString i), []⟩
        ⟨"2024-03-05", "NEWSHOP", 12, some "Misc", none⟩).anomalies
      = [{ type := "new_merchant", severity := "low",
           description := "First time spending at NEWSHOP",
           amount := 12, date := "2024-03-05", merchant := "NEWSHOP" }] :=
  (new_merchant_rule_spec
      ⟨[], (List.range 21).map (fun i => "m" ++ toString i), []⟩
      ⟨"2024-03-05", "NEWSHOP", 12, some "Misc", none⟩
      (by decide) (by decide) (by decide)).trans (by decide)

/-- C8: in the chronological pass, a skipped transaction (non-positive
amount or excluded category) changes nothing; a qualifying transaction
is judged against the pre-update state — emitting its spike and
new-merchant anomalies computed from that state — and only afterwards
is its amount appended to its category's window; the spike list is
non-empty exactly when the window of the 10 most recent recorded
amounts is non-empty, the amount exceeds 2.5 times its average and
exceeds 50, with severity "high" exactly when the amount exceeds 5
times the average (in particular a category's first-ever qualifying
transaction never spikes); and `detect_anomalies` returns at most 5
anomalies, a suffix (hence in chronological emission order) of the full
pass's emission list. -/
theorem spike_rule_and_last_five_spec (s : AnomState) (tx : DBTx)
    (txs : List DBTx) :
    (tx.amount ≤ 0 ∨ isExcludedCat tx.category = true → anomalyStep s tx = s)
    ∧ (0 < tx.amount → isExcludedCat tx.category = false →
        (anomalyStep s tx).anomalies
          = s.anomalies ++ spikeAnomalies s tx ++ newMerchantAnomalies s tx
        ∧ windowLookup (anomalyStep s tx).category_spending tx.category
            = windowLookup s.category_spending tx.category ++ [tx.amount])
    ∧ (let w := takeLast 10 (windowLookup s.category_spending tx.category)
       let avg := w.sum / (w.length : ℚ)
       (spikeAnomalies s tx
          = if w ≠ [] ∧ avg * 2.5 < tx.amount ∧ 50 < tx.amount then
              [{ type := "spike",
                 severity := if avg * 5 < tx.amount then "high" else "medium",
                 description :=
                   "Unusually high " ++ showCat tx.category ++ " expense",
                 amount := tx.amount, date := tx.date,
                 merchant := merchantOf tx }]
            else [])
       ∧ (windowLookup s.category_spending tx.category = [] →
           spikeAnomalies s tx = []))
    ∧ (detect_anomalies txs).length ≤ 5
    ∧ (detect_anomalies txs).IsSuffix
        (anomalyPass (List.insertionSort
          (fun a b => pyLe a.date.data b.date.data = true) txs)).anomalies := by
  refine ⟨?_, ?_, ⟨?_, ?_⟩, ?_, ?_⟩
  · intro h
    have : tx.amount ≤ 0 ∨ isExcludedCat tx.category := by
      rcases h with h | h
      · exact Or.inl h
      · exact Or.inr (by simp [h])
    simp [anomalyStep, this]
  · intro hpos hcat
    have hskip : ¬ (tx.amount ≤ 0 ∨ isExcludedCat tx.category) := by
      push_neg
      exact ⟨hpos, by simp [hcat]⟩
    constructor
    · simp [anomalyStep, if_neg hskip]
    · simp only [anomalyStep, if_neg hskip]
      generalize s.category_spending = m
      induction m with
      | nil => simp [windowAppend, windowLookup]
      | cons e rest ih =>
          by_cases he : e.1 = tx.category <;>
            simp [windowAppend, windowLookup, he, ih]
  · by_cases hw :
        takeLast 10 (windowLookup s.category_spending tx.category) = []
    · simp [spikeAnomalies, hw]
    · by_cases hc :
          (takeLast 10 (windowLookup s.category_spending tx.category)).sum
              / ((takeLast 10
                  (windowLookup s.category_spending tx.category)).length : ℚ)
              * 2.5 < tx.amount
            ∧ 50 < tx.amount
      · simp [spikeAnomalies, hw, hc]
      · simp [spikeAnomalies, hw, hc]
  · intro h
    simp [spikeAnomalies, takeLast, h]
  · by_cases h : txs = []
    · simp [detect_anomalies, h]
    · simp only [detect_anomalies, if_neg h, takeLast, List.length_drop]
      omega
  · by_cases h : txs = []
    · simp [detect_anomalies, h, anomalyPass, initAnomState]
    · simp only [detect_anomalies, if_neg h, takeLast]
      exact List.drop_suffix _ _

/-- Witness for C8: against a Dining window holding one amount of 10, a
Dining expense of 60 exceeds 2.5 times the average and the absolute
floor of 50, and exceeds 5 times the average, so one severity-"high"
spike is emitted. -/
theorem spike_rule_and_last_five_spec_witness :
    (anomalyStep ⟨[(some "Dining", [10])], [], []⟩
        ⟨"2024-02-02", "FANCY", 60, some "Dining", none⟩).anomalies
      = [{ type := "spike", severity := "high",
           description := "Unusually high Dining expense",
           amount := 60, date := "2024-02-02", merchant := "FANCY" }] := by
  have h := (spike_rule_and_last_five_spec ⟨[(some "Dining", [10])], [], []⟩
      ⟨"2024-02-02", "FANCY", 60, some "Dining", none⟩ []).2.1
      (by norm_num) (by decide)
  rw [h.1]
  norm_num [spikeAnomalies, newMerchantAnomalies, windowLookup, takeLast,
    merchantOf, showCat, lowStr]
  decide

/-! ## Lemmas about the trend analyzer -/

theorem trendDirection_cases (q : ℚ) :
    (trendDirection q = "increasing" ↔ 5 < q)
    ∧ (trendDirection q = "decreasing" ↔ q < -5)
    ∧ (trendDirection q = "stable" ↔ -5 ≤ q ∧ q ≤ 5) := by
  by_cases h1 : 5 < q
  · have hd : trendDirection q = "increasing" := by simp [trendDirection, h1]
    rw [hd]
    refine ⟨⟨fun _ => h1, fun _ => rfl⟩,
      ⟨fun h => absurd h (by decide), fun h => absurd h1 (by linarith)⟩,
      ⟨fun h => absurd h (by decide), fun h => absurd h1 (by linarith [h.2])⟩⟩
  · by_cases h2 : q < -5
    · have hd : trendDirection q = "decreasing" := by
        simp [trendDirection, h1, h2]
      rw [hd]
      refine ⟨⟨fun h => absurd h (by decide), fun h => absurd h h1⟩,
        ⟨fun _ => h2, fun _ => rfl⟩,
        ⟨fun h => absurd h (by decide), fun h => absurd h2 (by linarith [h.1])⟩⟩
    · have hd : trendDirection q = "stable" := by simp [trendDirection, h1, h2]
      rw [hd]
      refine ⟨⟨fun h => absurd h (by decide), fun h => absurd h h1⟩,
        ⟨fun h => absurd h (by decide), fun h => absurd h h2⟩,
        ⟨fun _ => ⟨by linarith [not_lt.mp h2], by linarith [not_lt.mp h1]⟩,
          fun _ => rfl⟩⟩

/-- C6: in `analyze_trends`, with at least two monthly buckets the
change percentage is `(current - previous) / |previous| * 100` when the
previous monthly total is nonzero and 0 otherwise; the direction is
"increasing" iff the change exceeds 5, "decreasing" iff it is below -5,
and "stable" otherwise — in particular a change of exactly 5 or -5 is
"stable"; with fewer than two buckets the change is 0 and the current
total is the single bucket's value (or 0 if none). -/
theorem analyze_trends_change_spec (monthly : List ℚ) :
    (2 ≤ monthly.length →
      trendCurrent monthly = monthly.getLastD 0
      ∧ trendPrevious monthly = monthly.dropLast.getLastD 0
      ∧ (monthly.dropLast.getLastD 0 ≠ 0 →
          trendChange monthly
            = ((monthly.getLastD 0 - monthly.dropLast.getLastD 0)
                / |monthly.dropLast.getLastD 0|) * 100)
      ∧ (monthly.dropLast.getLastD 0 = 0 → trendChange monthly = 0))
    ∧ (monthly.length < 2 →
        trendChange monthly = 0 ∧ trendCurrent monthly = monthly.headD 0)
    ∧ (trendCalc monthly
        = (trendChange monthly, trendDirection (trendChange monthly),
            trendCurrent monthly, trendPrevious monthly))
    ∧ (trendDirection (trendChange monthly) = "increasing"
        ↔ 5 < trendChange monthly)
    ∧ (trendDirection (trendChange monthly) = "decreasing"
        ↔ trendChange monthly < -5)
    ∧ (trendDirection (trendChange monthly) = "stable"
        ↔ -5 ≤ trendChange monthly ∧ trendChange monthly ≤ 5)
    ∧ (trendChange monthly = 5 ∨ trendChange monthly = -5 →
        trendDirection (trendChange monthly) = "stable") := by
  obtain ⟨hi, hd, hs⟩ := trendDirection_cases (trendChange monthly)
  refine ⟨?_, ?_, rfl, hi, hd, hs, ?_⟩
  · intro h2
    refine ⟨by simp [trendCurrent, h2], by simp [trendPrevious, h2], ?_, ?_⟩
    · intro hprev
      rw [trendChange, if_pos h2, if_pos hprev]
    · intro hprev
      rw [trendChange, if_pos h2, if_neg (not_not_intro hprev)]
  · intro h2
    have : ¬ 2 ≤ monthly.length := by omega
    exact ⟨by simp [trendChange, this], by simp [trendCurrent, this]⟩
  · rintro (h | h) <;> exact hs.mpr (by rw [h]; norm_num)

/-- Witness for C6: monthly totals 100 then 105 give a change of exactly
5 percent, which classifies as "stable". -/
theorem analyze_trends_change_spec_witness :
    trendChange [100, 105] = 5
    ∧ trendDirection (trendChange [100, 105]) = "stable" := by
  have t := analyze_trends_change_spec [100, 105]
  have hch : trendChange [100, 105] = 5 := by
    have := (t.1 (by decide)).2.2.1 (by norm_num)
    rw [this]
    norm_num
  exact ⟨hch, t.2.2.2.2.2.2 (Or.inl hch)⟩

/-! ## Lemmas about the daily series of the trend analyzer -/

/-- Lookup in the insertion-ordered assoc-list model of the daily
defaultdict. -/
def dailyLookup (m : List (ℤ × ℚ)) (d : ℤ) : Option ℚ :=
  match m with
  | [] => none
  | (d0, v) :: rest => if d0 = d then some v else dailyLookup rest d

/-- The sum of the amounts of the entries of `l` dated `d`. -/
def sumAt (l : List (ℤ × ℚ)) (d : ℤ) : ℚ :=
  ((l.filter (fun p => p.1 = d)).map Prod.snd).sum

theorem sumAt_nil (d : ℤ) : sumAt [] d = 0 := rfl

theorem sumAt_cons (p : ℤ × ℚ) (l : List (ℤ × ℚ)) (d : ℤ) :
    sumAt (p :: l) d = (if p.1 = d then p.2 else 0) + sumAt l d := by
  by_cases h : p.1 = d <;> simp [sumAt, h]

theorem dailyLookup_dailyAdd_self (m : List (ℤ × ℚ)) (d : ℤ) (a : ℚ) :
    dailyLookup (dailyAdd m d a) d
      = some ((dailyLookup m d).getD 0 + a) := by
  induction m with
  | nil => simp [dailyAdd, dailyLookup]
  | cons e rest ih =>
      obtain ⟨d0, v⟩ := e
      by_cases h : d0 = d
      · subst h
        simp [dailyAdd, dailyLookup]
      · simp [dailyAdd, dailyLookup, h, ih]

theorem dailyLookup_dailyAdd_ne (m : List (ℤ × ℚ)) (d : ℤ) (a : ℚ)
    (d' : ℤ) (h : d' ≠ d) :
    dailyLookup (dailyAdd m d a) d' = dailyLookup m d' := by
  induction m with
  | nil => simp [dailyAdd, dailyLookup, Ne.symm h]
  | cons e rest ih =>
      obtain ⟨d0, v⟩ := e
      by_cases h0 : d0 = d
      · subst h0
        simp [dailyAdd, dailyLookup, Ne.symm h]
      · by_cases h1 : d0 = d'
        · subst h1
          simp [dailyAdd, dailyLookup, h0]
        · simp [dailyAdd, dailyLookup, h0, h1, ih]

theorem dailyAdd_map_fst (m : List (ℤ × ℚ)) (d : ℤ) (a : ℚ) :
    (dailyAdd m d a).map Prod.fst
      = if d ∈ m.map Prod.fst then m.map Prod.fst
        else m.map Prod.fst ++ [d] := by
  induction m with
  | nil => simp [dailyAdd]
  | cons e rest ih =>
      obtain ⟨d0, v⟩ := e
      by_cases h : d0 = d
      · subst h
        simp [dailyAdd]
      · simp only [dailyAdd, if_neg h, List.map_cons, List.mem_cons, ih]
        by_cases hd : d ∈ rest.map Prod.fst
        · simp [hd, Ne.symm h]
        · simp [hd, Ne.symm h]

theorem dailyAdd_nodup (m : List (ℤ × ℚ)) (d : ℤ) (a : ℚ)
    (h : (m.map Prod.fst).Nodup) :
    ((dailyAdd m d a).map Prod.fst).Nodup := by
  rw [dailyAdd_map_fst]
  split
  · exact h
  · rename_i hd
    simp [List.nodup_append, h, hd]

theorem foldl_dailyAdd_nodup (l : List (ℤ × ℚ)) (acc : List (ℤ × ℚ))
    (h : (acc.map Prod.fst).Nodup) :
    (((l.foldl (fun m p => dailyAdd m p.1 p.2) acc)).map Prod.fst).Nodup := by
  induction l generalizing acc with
  | nil => simpa using h
  | cons p rest ih => exact ih _ (dailyAdd_nodup _ _ _ h)

theorem dailyLookup_foldl (l : List (ℤ × ℚ)) (acc : List (ℤ × ℚ)) (d : ℤ) :
    dailyLookup (l.foldl (fun m p => dailyAdd m p.1 p.2) acc) d
      = if d ∈ l.map Prod.fst ∨ (dailyLookup acc d).isSome = true
        then some ((dailyLookup acc d).getD 0 + sumAt l d)
        else none := by
  induction l generalizing acc with
  | nil =>
      cases h : dailyLookup acc d <;> simp [sumAt_nil, h]
  | cons p rest ih =>
      simp only [List.foldl_cons]
      rw [ih]
      by_cases hd : p.1 = d
      · subst hd
        rw [dailyLookup_dailyAdd_self acc p.1 p.2]
        simp [sumAt_cons, add_assoc]
      · have hne := dailyLookup_dailyAdd_ne acc p.1 p.2 d (Ne.symm hd)
        rw [hne, sumAt_cons, if_neg hd, zero_add]
        have hiff : (d ∈ (p :: rest).map Prod.fst
              ∨ (dailyLookup acc d).isSome = true)
            ↔ (d ∈ rest.map Prod.fst ∨ (dailyLookup acc d).isSome = true) := by
          simp only [List.map_cons, List.mem_cons]
          constructor
          · rintro ((he | hm) | hs)
            · exact absurd he.symm hd
            · exact Or.inl hm
            · exact Or.inr hs
          · rintro (hm | hs)
            · exact Or.inl (Or.inr hm)
            · exact Or.inr hs
        by_cases hcond : d ∈ rest.map Prod.fst
            ∨ (dailyLookup acc d).isSome = true
        · rw [if_pos hcond, if_pos (hiff.mpr hcond)]
        · rw [if_neg hcond, if_neg (fun hc => hcond (hiff.mp hc))]

theorem mem_iff_dailyLookup (m : List (ℤ × ℚ))
    (h : (m.map Prod.fst).Nodup) (d : ℤ) (q : ℚ) :
    (d, q) ∈ m ↔ dailyLookup m d = some q := by
  induction m with
  | nil => simp [dailyLookup]
  | cons e rest ih =>
      obtain ⟨d0, v⟩ := e
      simp only [List.map_cons, List.nodup_cons] at h
      by_cases hd : d0 = d
      · subst hd
        constructor
        · intro hm
          rcases List.mem_cons.mp hm with he | hm
          · have hqv := ((Prod.mk.injEq _ _ _ _).mp he).2
            simp [dailyLookup, hqv]
          · exact absurd (List.mem_map_of_mem Prod.fst hm) h.1
        · intro hl
          have hvq : v = q := by simpa [dailyLookup] using hl
          subst hvq
          exact List.mem_cons_self _ _
      · have hne : ¬ (d, q) = (d0, v) :=
          fun he => hd ((congrArg Prod.fst he).symm)
        simp [dailyLookup, hd, ih h.2, hne]

/-- Counterexample to C7 as stated: with transactions on day 0 and day
30, the anchor is day 30 and "the 30 days up to and including the
anchor" are days 1..30; yet the code's filter `date >= anchor -
timedelta(days = 30)` keeps day 0, so the daily series contains an
entry for a day outside that 30-day window (the window is actually 31
days). -/
theorem daily_series_window_counterexample :
    anchorDate [((0 : ℤ), (5 : ℚ)), (30, 7)] = 30
    ∧ dailySeriesOf [((0 : ℤ), (5 : ℚ)), (30, 7)] = [(0, 5), (30, 7)]
    ∧ specDailySeriesOf [((0 : ℤ), (5 : ℚ)), (30, 7)] = [(30, 7)]
    ∧ dailySeriesOf [((0 : ℤ), (5 : ℚ)), (30, 7)]
        ≠ specDailySeriesOf [((0 : ℤ), (5 : ℚ)), (30, 7)] := by
  refine ⟨by decide, ?_, ?_, ?_⟩
  · norm_num [dailySeriesOf, anchorDate, dailyAdd, List.insertionSort,
      List.orderedInsert, round2]
  · norm_num [specDailySeriesOf, anchorDate, dailyAdd, List.insertionSort,
      List.orderedInsert, round2]
  · norm_num [dailySeriesOf, specDailySeriesOf, anchorDate, dailyAdd,
      List.insertionSort, List.orderedInsert, round2]

/-- C7 (amended): the daily series of `analyze_trends` contains exactly
the per-calendar-day rounded sums of the parsed, non-excluded
transactions dated within 30 days BEFORE the anchor or later — the
inclusive window `anchor - 30 <= d` of 31 calendar days, one day more
than the spec's "30 days up to and including the anchor" — sorted by
date ascending; days earlier than that window contribute to no entry. -/
theorem daily_series_window_amended (parsed : List (ℤ × ℚ)) :
    List.Pairwise (fun x y : ℤ × ℚ => x.1 ≤ y.1) (dailySeriesOf parsed)
    ∧ ∀ d q, ((d, q) ∈ dailySeriesOf parsed
        ↔ anchorDate parsed - 30 ≤ d ∧ d ∈ parsed.map Prod.fst
            ∧ q = round2 (sumAt parsed d)) := by
  haveI hTot : IsTotal (ℤ × ℚ) (fun x y => x.1 ≤ y.1) :=
    ⟨fun a b => le_total a.1 b.1⟩
  haveI hTrans : IsTrans (ℤ × ℚ) (fun x y => x.1 ≤ y.1) :=
    ⟨fun _ _ _ hab hbc => le_trans hab hbc⟩
  have hS : dailySeriesOf parsed
      = (List.insertionSort (fun x y : ℤ × ℚ => x.1 ≤ y.1)
          ((parsed.filter (fun p => anchorDate parsed - 30 ≤ p.1)).foldl
            (fun m p => dailyAdd m p.1 p.2) [])).map
          (fun p => (p.1, round2 p.2)) := rfl
  have hnd : (((parsed.filter (fun p => anchorDate parsed - 30 ≤ p.1)).foldl
      (fun m p => dailyAdd m p.1 p.2) []).map Prod.fst).Nodup :=
    foldl_dailyAdd_nodup _ [] (by simp)
  have hperm := List.perm_insertionSort (fun x y : ℤ × ℚ => x.1 ≤ y.1)
    ((parsed.filter (fun p => anchorDate parsed - 30 ≤ p.1)).foldl
      (fun m p => dailyAdd m p.1 p.2) [])
  constructor
  · rw [hS]
    exact List.Pairwise.map _ (fun a b hab => hab)
      (List.sorted_insertionSort _ _)
  · intro d q
    rw [hS]
    have hdl : dailyLookup
        ((parsed.filter (fun p => anchorDate parsed - 30 ≤ p.1)).foldl
          (fun m p => dailyAdd m p.1 p.2) []) d
        = if d ∈ (parsed.filter
              (fun p => anchorDate parsed - 30 ≤ p.1)).map Prod.fst
          then some (sumAt (parsed.filter
              (fun p => anchorDate parsed - 30 ≤ p.1)) d)
          else none := by
      rw [dailyLookup_foldl]
      simp only [dailyLookup, Option.isSome_none, Bool.false_eq_true,
        or_false, Option.getD_none, zero_add]
    have hmemf : d ∈ (parsed.filter
          (fun p => anchorDate parsed - 30 ≤ p.1)).map Prod.fst
        ↔ (anchorDate parsed - 30 ≤ d ∧ d ∈ parsed.map Prod.fst) := by
      simp only [List.mem_map, List.mem_filter, decide_eq_true_eq]
      constructor
      · rintro ⟨p, ⟨hp, hw⟩, rfl⟩
        exact ⟨hw, ⟨p, hp, rfl⟩⟩
      · rintro ⟨hw, p, hp, rfl⟩
        exact ⟨p, ⟨hp, hw⟩, rfl⟩
    have hsum : anchorDate parsed - 30 ≤ d →
        sumAt (parsed.filter (fun p => anchorDate parsed - 30 ≤ p.1)) d
          = sumAt parsed d := by
      intro hw
      unfold sumAt
      rw [List.filter_filter]
      have hfe : parsed.filter (fun a => decide (a.1 = d)
            && decide (anchorDate parsed - 30 ≤ a.1))
          = parsed.filter (fun p => decide (p.1 = d)) := by
        apply List.filter_congr
        intro p _
        by_cases hpd : p.1 = d
        · subst hpd
          simp [hw]
        · simp [hpd]
      rw [hfe]
    constructor
    · intro hmem
      obtain ⟨p, hpsorted, hpe⟩ := List.mem_map.mp hmem
      have hpdm := hperm.mem_iff.mp hpsorted
      have hp1 : p.1 = d := congrArg Prod.fst hpe
      have hp2 : round2 p.2 = q := congrArg Prod.snd hpe
      have : (d, p.2) ∈ (parsed.filter
          (fun p => anchorDate parsed - 30 ≤ p.1)).foldl
            (fun m p => dailyAdd m p.1 p.2) [] := by
        rw [← hp1]
        exact hpdm
      rw [mem_iff_dailyLookup _ hnd] at this
      rw [hdl] at this
      by_cases hin : d ∈ (parsed.filter
          (fun p => anchorDate parsed - 30 ≤ p.1)).map Prod.fst
      · rw [if_pos hin] at this
        obtain ⟨hw, hmemp⟩ := hmemf.mp hin
        refine ⟨hw, hmemp, ?_⟩
        rw [← hp2, ← Option.some_inj.mp this, hsum hw]
      · rw [if_neg hin] at this
        exact absurd this (by simp)
    · rintro ⟨hw, hmemp, rfl⟩
      have hin : d ∈ (parsed.filter
          (fun p => anchorDate parsed - 30 ≤ p.1)).map Prod.fst :=
        hmemf.mpr ⟨hw, hmemp⟩
      have hlook : dailyLookup ((parsed.filter
          (fun p => anchorDate parsed - 30 ≤ p.1)).foldl
            (fun m p => dailyAdd m p.1 p.2) []) d
          = some (sumAt parsed d) := by
        rw [hdl, if_pos hin, hsum hw]
      have hmem : (d, sumAt parsed d) ∈ (parsed.filter
          (fun p => anchorDate parsed - 30 ≤ p.1)).foldl
            (fun m p => dailyAdd m p.1 p.2) [] :=
        (mem_iff_dailyLookup _ hnd _ _).mpr hlook
      exact List.mem_map.mpr ⟨(d, sumAt parsed d),
        hperm.mem_iff.mpr hmem, rfl⟩

/-- Witness for C7 (amended): on the two-transaction data set, the day
of the anchor itself is in the window and its entry carries its (rounded)
daily sum. -/
theorem daily_series_window_amended_witness :
    ((30 : ℤ), (7 : ℚ)) ∈ dailySeriesOf [((0 : ℤ), (5 : ℚ)), (30, 7)] := by
  have h := (daily_series_window_amended [((0 : ℤ), (5 : ℚ)), (30, 7)]).2 30 7
  refine h.mpr ⟨by decide, by decide, ?_⟩
  norm_num [sumAt, round2]

/-! ## Lemmas about the deduplicating persistence layer -/

theorem matchesKey_iff (r : DBRow) (tx : TxIn) :
    matchesKey r tx = true ↔ rowKey r = txKey tx := by
  simp [matchesKey, rowKey, txKey, Prod.ext_iff]

theorem rowKey_toRow (tx : TxIn) : rowKey (toRow tx) = txKey tx := rfl

theorem matchesKey_toRow (tx : TxIn) : matchesKey (toRow tx) tx = true := by
  simp [matchesKey, toRow]

theorem savePending_loop (store : List DBRow) (batch : List TxIn)
    (acc : List DBRow × ℕ) :
    batch.foldl
      (fun acc tx =>
        if store.any (fun r => matchesKey r tx) then acc
        else (acc.1 ++ [toRow tx], acc.2 + 1)) acc
      = (acc.1 ++ (batch.filter
            (fun tx => !(store.any (fun r => matchesKey r tx)))).map toRow,
         acc.2 + (batch.filter
            (fun tx => !(store.any (fun r => matchesKey r tx)))).length) := by
  induction batch generalizing acc with
  | nil => simp
  | cons tx rest ih =>
      rw [List.foldl_cons, List.filter_cons]
      by_cases h : store.any (fun r => matchesKey r tx) = true
      · have hb : (!(store.any fun r => matchesKey r tx)) = false := by
          simp [h]
        rw [if_pos h, ih]
        simp only [hb, Bool.false_eq_true, if_false]
      · have hb : (!(store.any fun r => matchesKey r tx)) = true := by
          simp [Bool.eq_false_iff.mpr h]
        rw [if_neg h, ih]
        simp only [hb, if_true, List.map_cons, List.length_cons,
          Prod.mk.injEq]
        refine ⟨by simp, by omega⟩

theorem savePending_eq (store : List DBRow) (batch : List TxIn) :
    savePending store batch
      = ((batch.filter
            (fun tx => !(store.any (fun r => matchesKey r tx)))).map toRow,
         (batch.filter
            (fun tx => !(store.any (fun r => matchesKey r tx)))).length) := by
  unfold savePending
  rw [savePending_loop]
  simp

/-- A concrete incoming record used to exercise the persistence layer. -/
def sampleTx : TxIn :=
  ⟨"2024-01-05", "WHOLE FOODS MARKET", 54, "Groceries", some "Austin TX",
   some "stmt1.pdf", some "Whole Foods", false, some "Visa", none,
   some "USD", none, some "Debit", none, some "1234", some "Chase",
   some true, none, some 1⟩

/-- C9: `save_transactions` is atomic per call — on success the
committed table is exactly the old table followed by every non-duplicate
record of the batch (inserted together), and the returned count is their
number; on a persistence failure the rollback leaves the table exactly
as before the call and the error propagates to the caller. -/
theorem save_transactions_atomic_spec (store : List DBRow)
    (batch : List TxIn) :
    (∀ store2 n, save_transactions store batch = .ok (store2, n) →
      store2 = store ++ (batch.filter
          (fun tx => !(store.any (fun r => matchesKey r tx)))).map toRow
      ∧ n = (batch.filter
          (fun tx => !(store.any (fun r => matchesKey r tx)))).length
      ∧ saveTransactionsDB store batch = store2)
    ∧ (∀ e, save_transactions store batch = .error e →
        saveTransactionsDB store batch = store) := by
  constructor
  · intro store2 n h
    have hdb : saveTransactionsDB store batch = store2 := by
      simp [saveTransactionsDB, h]
    refine ⟨?_, ?_, hdb⟩ <;>
      · simp only [save_transactions, savePending_eq store batch] at h
        by_cases hN : ((store ++ (batch.filter
            (fun tx => !(store.any (fun r => matchesKey r tx)))).map
              toRow).map rowKey).Nodup
        · rw [if_pos hN] at h
          injection h with h'
          obtain ⟨h1, h2⟩ := (Prod.mk.injEq _ _ _ _).mp h'
          simp [h1.symm, h2.symm]
        · rw [if_neg hN] at h
          cases h
  · intro e h
    simp [saveTransactionsDB, h]

/-- Witness for C9: saving one record into an empty table commits
exactly that row. -/
theorem save_transactions_atomic_spec_witness :
    saveTransactionsDB [] [sampleTx] = [toRow sampleTx] :=
  ((save_transactions_atomic_spec [] [sampleTx]).1 [toRow sampleTx] 1
    (by rfl)).2.2

/-- C1: `save_transactions` is idempotent on the identity key — after a
successful call, repeating the identical batch returns `newCount = 0`
and leaves the stored rows unchanged; the rows present before the call
are retained untouched (first-writer wins, including `category` and the
enrichment fields), and no incoming record whose
(date, description, amount, defaulted source_file) key matches a
pre-existing row contributes any inserted row. -/
theorem save_transactions_idempotent_spec (store : List DBRow)
    (batch : List TxIn) (store2 : List DBRow) (n : ℕ)
    (h : save_transactions store batch = .ok (store2, n)) :
    save_transactions store2 batch = .ok (store2, 0)
    ∧ store2.take store.length = store
    ∧ (∀ tx ∈ batch, store.any (fun r => matchesKey r tx) = true →
        ∀ r ∈ store2.drop store.length, rowKey r ≠ txKey tx) := by
  simp only [save_transactions, savePending_eq store batch] at h
  by_cases hN : ((store ++ (batch.filter
      (fun tx => !(store.any (fun r => matchesKey r tx)))).map
        toRow).map rowKey).Nodup
  swap
  · rw [if_neg hN] at h
    cases h
  rw [if_pos hN] at h
  injection h with h'
  obtain ⟨h1, -⟩ := (Prod.mk.injEq _ _ _ _).mp h'
  subst h1
  refine ⟨?_, List.take_left _ _, ?_⟩
  · have hall : ∀ tx ∈ batch,
        ((store ++ (batch.filter
          (fun tx => !(store.any (fun r => matchesKey r tx)))).map
            toRow).any (fun r => matchesKey r tx)) = true := by
      intro tx htx
      by_cases hf : store.any (fun r => matchesKey r tx) = true
      · rcases List.any_eq_true.mp hf with ⟨r, hr, hm⟩
        exact List.any_eq_true.mpr ⟨r, List.mem_append_left _ hr, hm⟩
      · have hmemf : tx ∈ batch.filter
            (fun tx => !(store.any (fun r => matchesKey r tx))) :=
          List.mem_filter.mpr ⟨htx, by simp [Bool.eq_false_iff.mpr hf]⟩
        exact List.any_eq_true.mpr ⟨toRow tx,
          List.mem_append_right _ (List.mem_map_of_mem toRow hmemf),
          matchesKey_toRow tx⟩
    have hfilter : batch.filter (fun tx =>
        !((store ++ (batch.filter
          (fun tx => !(store.any (fun r => matchesKey r tx)))).map
            toRow).any (fun r => matchesKey r tx))) = [] := by
      rw [List.filter_eq_nil_iff]
      intro tx htx
      simp [hall tx htx]
    simp only [save_transactions, savePending_eq _ batch, hfilter,
      List.map_nil, List.length_nil, List.append_nil]
    rw [if_pos hN]
  · intro tx htx hdup r hr hkey
    rw [List.drop_left] at hr
    obtain ⟨tx', htx', rfl⟩ := List.mem_map.mp hr
    have hfresh' : store.any (fun r => matchesKey r tx') = false := by
      have := (List.mem_filter.mp htx').2
      simpa using this
    rcases List.any_eq_true.mp hdup with ⟨r0, hr0, hm0⟩
    have hk0 : rowKey r0 = txKey tx := (matchesKey_iff r0 tx).mp hm0
    have hk' : txKey tx' = txKey tx := by
      rw [← rowKey_toRow]
      exact hkey
    have hm0' : matchesKey r0 tx' = true :=
      (matchesKey_iff r0 tx').mpr (by rw [hk0, hk'])
    have : store.any (fun r => matchesKey r tx') = true :=
      List.any_eq_true.mpr ⟨r0, hr0, hm0'⟩
    rw [this] at hfresh'
    cases hfresh'

/-- Witness for C1: after saving one record, re-saving the identical
batch returns `newCount = 0` with the table unchanged. -/
theorem save_transactions_idempotent_spec_witness :
    save_transactions [toRow sampleTx] [sampleTx]
      = .ok ([toRow sampleTx], 0) :=
  (save_transactions_idempotent_spec [] [sampleTx] [toRow sampleTx] 1
    (by rfl)).1

/-- Counterexample to C10 as stated: for a batch of two records with
identical keys and an empty store, neither record is skipped (both are
added to the session, the counter reaches 2) — but the commit then hits
the unique constraint on (date, description, amount, source_file), so
the call raises instead of returning `new_count = 2`. -/
theorem intra_batch_duplicate_counterexample :
    savePending [] [sampleTx, sampleTx]
      = ([toRow sampleTx, toRow sampleTx], 2)
    ∧ save_transactions [] [sampleTx, sampleTx]
        = .error "UNIQUE constraint failed: transactions" :=
  ⟨by decide, by rfl⟩

/-- C10 (amended): within one call the duplicate lookup sees only
pre-call rows (`autoflush = False`), so in a batch whose records all
miss the stored table no record is ever skipped as a duplicate of
another batch record — all are added and counted; but if two batch
records share an identity key, the commit violates the table's unique
constraint, so the call raises and stores nothing instead of returning
the count. -/
theorem intra_batch_no_dedup_spec (store : List DBRow) (batch : List TxIn)
    (hfresh : ∀ tx ∈ batch, store.any (fun r => matchesKey r tx) = false) :
    savePending store batch = (batch.map toRow, batch.length)
    ∧ (∀ pre mid post t1 t2,
        batch = pre ++ t1 :: (mid ++ t2 :: post) →
        txKey t1 = txKey t2 →
        save_transactions store batch
          = .error "UNIQUE constraint failed: transactions") := by
  have hfb : batch.filter
      (fun tx => !(store.any (fun r => matchesKey r tx))) = batch :=
    List.filter_eq_self.mpr (fun tx htx => by simp [hfresh tx htx])
  constructor
  · rw [savePending_eq, hfb]
  · rintro pre mid post t1 t2 rfl hk
    simp only [save_transactions, savePending_eq, hfb]
    rw [if_neg ?hn]
    case hn =>
      intro hN
      have hmapkeys : ((store ++ ((pre ++ t1 :: (mid ++ t2 :: post)).map
          toRow)).map rowKey)
          = store.map rowKey ++ (pre.map txKey
              ++ txKey t1 :: (mid.map txKey
                  ++ txKey t2 :: post.map txKey)) := by
        rw [List.map_append, List.map_map]
        have hcomp : rowKey ∘ toRow = txKey := rfl
        rw [hcomp]
        simp [List.map_append, List.map_cons]
      rw [hmapkeys] at hN
      have h1 : List.Sublist [txKey t1]
          (mid.map txKey ++ txKey t2 :: post.map txKey) :=
        List.singleton_sublist.mpr
          (List.mem_append_right _ (hk ▸ List.mem_cons_self _ _))
      have h2 := h1.cons₂ (txKey t1)
      have h3 := h2.trans (List.sublist_append_right (pre.map txKey) _)
      have h4 := h3.trans (List.sublist_append_right (store.map rowKey) _)
      have := hN.sublist h4
      simp at this

/-- Witness for C10 (amended): the two-identical-record batch against an
empty store — both records pending, count 2, commit fails. -/
theorem intra_batch_no_dedup_spec_witness :
    savePending [] [sampleTx, sampleTx]
      = ([toRow sampleTx, toRow sampleTx], 2)
    ∧ save_transactions [] [sampleTx, sampleTx]
        = .error "UNIQUE constraint failed: transactions" := by
  have h := intra_batch_no_dedup_spec [] [sampleTx, sampleTx] (by decide)
  exact ⟨h.1.trans (by decide),
    h.2 [] [] [] sampleTx sampleTx rfl rfl⟩

/-! ## Lemmas about the insight cache and pipeline -/

/-- Lookup of the unique insight row keyed `(insight_type, key)`. -/
def insightLookup (store : List InsightRow) (t k : String) :
    Option InsightRow :=
  match store with
  | [] => none
  | r :: rest =>
      if r.insight_type = t ∧ r.key = k then some r
      else insightLookup rest t k

theorem applyRow_subscriptions (r : Report) (row : InsightRow)
    (h : row.insight_type ≠ "subscriptions") :
    (applyRow r row).subscriptions = r.subscriptions := by
  unfold applyRow
  split <;> simp_all

theorem foldl_applyRow_subscriptions (l : List InsightRow) (r : Report)
    (h : ∀ row ∈ l, row.insight_type ≠ "subscriptions") :
    (l.foldl applyRow r).subscriptions = r.subscriptions := by
  induction l generalizing r with
  | nil => rfl
  | cons row rest ih =>
      rw [List.foldl_cons, ih _ (fun x hx => h x (by simp [hx])),
        applyRow_subscriptions r row (h row (by simp))]

theorem insightLookup_save_self (store : List InsightRow)
    (t k : String) (v : IVal) (now : ℤ) :
    insightLookup (save_insight store t k v now) t k
      = some ⟨t, k, v, 1, now, now + INSIGHTS_TTL_DAYS⟩ := by
  induction store with
  | nil => simp [save_insight, insightLookup]
  | cons r rest ih =>
      by_cases hc : r.insight_type = t ∧ r.key = k
      · obtain ⟨h1, h2⟩ := hc
        cases r
        simp_all [save_insight, insightLookup]
      · simp [save_insight, insightLookup, hc, ih]

theorem insightLookup_save_other (store : List InsightRow)
    (t k t' k' : String) (v : IVal) (now : ℤ)
    (h : ¬ (t' = t ∧ k' = k)) :
    insightLookup (save_insight store t k v now) t' k'
      = insightLookup store t' k' := by
  induction store with
  | nil =>
      simp only [save_insight, insightLookup]
      rw [if_neg (fun hc => h ⟨hc.1.symm, hc.2.symm⟩)]
  | cons r rest ih =>
      obtain ⟨ri, rk, rv, rc, rcomp, rexp⟩ := r
      by_cases hc : ri = t ∧ rk = k
      · obtain ⟨h1, h2⟩ := hc
        subst h1
        subst h2
        have hne : ¬ (ri = t' ∧ rk = k') :=
          fun hc' => h ⟨hc'.1.symm, hc'.2.symm⟩
        simp [save_insight, insightLookup, hne]
      · by_cases hr : ri = t' ∧ rk = k'
        · obtain ⟨hr1, hr2⟩ := hr
          subst hr1
          subst hr2
          simp [save_insight, insightLookup, hc, h]
        · simp [save_insight, insightLookup, hc, hr, ih]

/-- C2: with `forceRefresh` false, the existence of any insight row
with `expires_at` strictly in the future makes the pipeline return the
report assembled (only) from the non-expired cached rows with the
insight store untouched — no tool result is consulted or recomputed,
and a type absent from the valid cache (e.g. subscriptions) surfaces as
its empty default; with `forceRefresh` true, or when no non-expired row
exists, the pipeline recomputes and returns all four tool results and
persists each via upsert on `(insight_type, "all")` in the order
category summary, subscriptions, trends, anomalies, each stored row
carrying the fresh TTL `expires_at = now + INSIGHTS_TTL_DAYS`. -/
theorem run_full_insights_pipeline_spec (store : List InsightRow) (now : ℤ)
    (cs : List (String × ℚ)) (ss : List SubRow) (tr : TrendOut)
    (an : List Anomaly) :
    ((∃ r ∈ store, now < r.expires_at) →
      run_full_insights_pipeline store false now cs ss tr an
        = ((store.filter (fun r => now < r.expires_at)).foldl applyRow
            defaultReport, store)
      ∧ ((∀ r ∈ store.filter (fun r => now < r.expires_at),
            r.insight_type ≠ "subscriptions") →
          ((store.filter (fun r => now < r.expires_at)).foldl applyRow
            defaultReport).subscriptions = []))
    ∧ (∀ force, (force = true ∨ ¬ ∃ r ∈ store, now < r.expires_at) →
        run_full_insights_pipeline store force now cs ss tr an
          = ({ category_summary := cs, subscriptions := ss,
               trends := some tr, anomalies := an, merchants := [],
               computed_at := some now },
             save_insight (save_insight (save_insight (save_insight store
               "category_summary" "all" (.cat cs) now)
               "subscriptions" "all" (.subs ss) now)
               "trends" "all" (.trends tr) now)
               "anomalies" "all" (.anoms an) now))
    ∧ (insightLookup (save_insight (save_insight (save_insight
          (save_insight store "category_summary" "all" (.cat cs) now)
          "subscriptions" "all" (.subs ss) now)
          "trends" "all" (.trends tr) now)
          "anomalies" "all" (.anoms an) now) "category_summary" "all"
        = some ⟨"category_summary", "all", .cat cs, 1, now,
            now + INSIGHTS_TTL_DAYS⟩
      ∧ insightLookup (save_insight (save_insight (save_insight
          (save_insight store "category_summary" "all" (.cat cs) now)
          "subscriptions" "all" (.subs ss) now)
          "trends" "all" (.trends tr) now)
          "anomalies" "all" (.anoms an) now) "subscriptions" "all"
        = some ⟨"subscriptions", "all", .subs ss, 1, now,
            now + INSIGHTS_TTL_DAYS⟩
      ∧ insightLookup (save_insight (save_insight (save_insight
          (save_insight store "category_summary" "all" (.cat cs) now)
          "subscriptions" "all" (.subs ss) now)
          "trends" "all" (.trends tr) now)
          "anomalies" "all" (.anoms an) now) "trends" "all"
        = some ⟨"trends", "all", .trends tr, 1, now,
            now + INSIGHTS_TTL_DAYS⟩
      ∧ insightLookup (save_insight (save_insight (save_insight
          (save_insight store "category_summary" "all" (.cat cs) now)
          "subscriptions" "all" (.subs ss) now)
          "trends" "all" (.trends tr) now)
          "anomalies" "all" (.anoms an) now) "anomalies" "all"
        = some ⟨"anomalies", "all", .anoms an, 1, now,
            now + INSIGHTS_TTL_DAYS⟩) := by
  refine ⟨?_, ?_, ?_, ?_, ?_, ?_⟩
  · intro hex
    have hne : (store.filter (fun r => now < r.expires_at)) ≠ [] := by
      obtain ⟨r, hr, hlt⟩ := hex
      exact List.ne_nil_of_mem (List.mem_filter.mpr ⟨hr, by simpa using hlt⟩)
    have hemp : (store.filter (fun r => now < r.expires_at)).isEmpty
        = false := by
      simpa [List.isEmpty_iff] using hne
    constructor
    · simp [run_full_insights_pipeline, get_cached_insights, hemp]
    · intro hnosub
      exact foldl_applyRow_subscriptions _ _ hnosub
  · rintro force (rfl | hnone)
    · rfl
    · cases force
      · have hnil : store.filter (fun r => now < r.expires_at) = [] := by
          rw [List.filter_eq_nil_iff]
          intro r hr
          simp only [decide_eq_true_eq]
          exact fun hlt => hnone ⟨r, hr, hlt⟩
        simp [run_full_insights_pipeline, get_cached_insights, hnil]
      · rfl
  · exact (insightLookup_save_other _ _ _ _ _ _ _ (by simp)).trans
      ((insightLookup_save_other _ _ _ _ _ _ _ (by simp)).trans
        ((insightLookup_save_other _ _ _ _ _ _ _ (by simp)).trans
          (insightLookup_save_self _ _ _ _ _)))
  · exact (insightLookup_save_other _ _ _ _ _ _ _ (by simp)).trans
      ((insightLookup_save_other _ _ _ _ _ _ _ (by simp)).trans
        (insightLookup_save_self _ _ _ _ _))
  · exact (insightLookup_save_other _ _ _ _ _ _ _ (by simp)).trans
      (insightLookup_save_self _ _ _ _ _)
  · exact insightLookup_save_self _ _ _ _ _

/-- Witness for C2: a store holding one valid `category_summary` row
(expiry 5 > now 0) short-circuits a non-force pipeline call — the
report carries the cached category summary, `subscriptions := []`
(even though the subscription tool result passed in is non-empty), and
the store is unchanged. -/
theorem run_full_insights_pipeline_spec_witness :
    run_full_insights_pipeline
        [⟨"category_summary", "all", .cat [("Dining", 42)], 1, 0, 5⟩]
        false 0 [("Groceries", 9)]
        [⟨some "GYM", 30, 3, none, none, false, 30⟩]
        ⟨"stable", 0, 0, 0, [], [], []⟩ []
      = ({ category_summary := [("Dining", 42)], subscriptions := [],
           trends := none, anomalies := [], merchants := [],
           computed_at := some 0 },
         [⟨"category_summary", "all", .cat [("Dining", 42)], 1, 0, 5⟩]) := by
  have h := (run_full_insights_pipeline_spec
      [⟨"category_summary", "all", .cat [("Dining", 42)], 1, 0, 5⟩] 0
      [("Groceries", 9)] [⟨some "GYM", 30, 3, none, none, false, 30⟩]
      ⟨"stable", 0, 0, 0, [], [], []⟩ []).1 (by decide)
  exact (h.1).trans (by decide)

end ExpenseExplorer
